import Mathlib

/-
Verification development for the Kiro account-manager gateway.

The definitions below are shallow embeddings of the TypeScript source:
`proxy-server.ts` (HTTP front-end and account-pool dispatcher) and the
Kiro adapter module (`KiroApiService`: request translation, event-stream
handling, retry policy).  Machine integers are modelled as `Int`/`Nat`;
JavaScript `undefined`-able values as `Option`; thrown exceptions as
`Except`/`Option`; external runtime primitives (`JSON.parse`,
`JSON.stringify`, `uuid`) are parameters or fixed placeholders, noted at
each use.
-/

/-- A civil (local-clock) date-time as read off the JavaScript `Date`
accessors; `month0` is the 0-based month used by `getMonth`. -/
structure LocalDate where
  year : Int
  month0 : Nat
  day : Nat
  hour : Nat
  minute : Nat
  second : Nat
  millis : Nat
deriving DecidableEq

/-- Days since the Unix epoch of a proleptic-Gregorian civil date
(the standard `days_from_civil` computation, truncating division).
Month `m` is 1-based here. -/
def daysFromCivil (y : Int) (m : Nat) (d : Nat) : Int :=
  let y2 : Int := if m ≤ 2 then y - 1 else y
  let era : Int := (if 0 ≤ y2 then y2 else y2 - 399) / 400
  let yoe : Int := y2 - era * 400
  let doy : Int := (153 * ((m : Int) + (if 2 < m then -3 else 9)) + 2) / 5 + (d : Int) - 1
  let doe : Int := yoe * 365 + yoe / 4 - yoe / 100 + doy
  era * 146097 + doe - 719468

/-- Epoch milliseconds of a civil date-time on the gateway's local-clock
timeline (`new Date(y, m, d, h, min, s, ms).getTime()` with the zone
offset normalised away: the claims only compare the code's own
computations, which all live on this one timeline). -/
def localDateToMs (t : LocalDate) : Int :=
  daysFromCivil t.year (t.month0 + 1) t.day * 86400000 +
    (t.hour : Int) * 3600000 + (t.minute : Int) * 60000 +
    (t.second : Int) * 1000 + (t.millis : Int)

/-- The date constructed by `new Date(year, month0 + 1, 1, 0, 0, 0, 0)`;
JavaScript normalises a month overflow into the following year.
Source: `getNextMonthStartMs` in `proxy-server.ts`. -/
def nextMonthStart (t : LocalDate) : LocalDate :=
  { year := t.year + ((t.month0 + 1) / 12 : Nat)
    month0 := (t.month0 + 1) % 12
    day := 1, hour := 0, minute := 0, second := 0, millis := 0 }

/-- Source: `getNextMonthStartMs(now)` in `proxy-server.ts`. -/
def getNextMonthStartMs (now : LocalDate) : Int :=
  localDateToMs (nextMonthStart now)

/-- Everything the dispatcher's `catch` block does with one failed
attempt: the cooldown-map write, the account-status change, whether the
`for` loop proceeds to the next account, the HTTP status written with
`sendJson` (if any), and whether an already-started SSE stream is merely
closed. -/
structure Disposition where
  cooldownUntil : Option Int
  newStatus : Option String
  quotaExhaustedUntil : Option Int
  continueLoop : Bool
  respond : Option Nat
  closeConnection : Bool
deriving DecidableEq

/-- Shallow embedding of the dispatcher's `catch (error)` block in
`startKiroProxyServer` (`proxy-server.ts`).  `statusCode` is
`error?.response?.status`; `streamStarted` models
`streamStarted || res.headersSent`; `now` is the `Date.now()` of the
failure. -/
def errorDisposition (statusCode : Option Nat) (streamStarted : Bool)
    (now : LocalDate) (cooldownMs : Int) : Disposition :=
  match statusCode with
  | none =>
      if streamStarted then ⟨none, none, none, false, none, true⟩
      else ⟨none, none, none, false, some 502, false⟩
  | some status =>
      if status = 400 then
        if streamStarted then ⟨none, none, none, false, none, true⟩
        else ⟨none, none, none, false, some 400, false⟩
      else if status = 402 then
        let resetAt := getNextMonthStartMs now
        if streamStarted then
          ⟨some resetAt, some "quota_exhausted", some resetAt, false, none, true⟩
        else
          ⟨some resetAt, some "quota_exhausted", some resetAt, true, none, false⟩
      else
        if streamStarted then
          ⟨some (localDateToMs now + cooldownMs), none, none, false, none, true⟩
        else
          ⟨some (localDateToMs now + cooldownMs), none, none, true, none, false⟩

/-- Source: `isAuthorized(req, apiKey)` in `proxy-server.ts`.  A missing
or empty configured key authorises everything (`if (!apiKey) return
true`); otherwise the bearer token or the `x-api-key` header must equal
the key. -/
def isAuthorized (apiKey : Option String) (authorizationHeader : Option String)
    (xApiKeyHeader : Option String) : Bool :=
  match apiKey with
  | none => true
  | some key =>
      if key = "" then true
      else
        let authHeader := (authorizationHeader.getD "").toList
        let token :=
          if "Bearer ".toList.isPrefixOf authHeader then String.mk (authHeader.drop 7) else ""
        let headerKey := xApiKeyHeader.getD ""
        token == key || headerKey == key

/-- Outcome of the route/authorisation chain of the request handler in
`startKiroProxyServer`, before any body parsing. -/
inductive RouteOutcome
  | preflight
  | healthOk
  | adminHtml
  | unauthorized
  | adminData
  | adminProxyConfig
  | adminUsageRefresh
  | adminAccountImport
  | adminAccountDelete
  | modelList
  | notFound
  | dispatchChat
deriving DecidableEq

/-- Shallow embedding of the `if`-chain of the HTTP handler in
`startKiroProxyServer` (`proxy-server.ts`), down to the point where a
`POST` body would be parsed.  `authed` is `isAuthorized` applied to the
request headers. -/
def routeRequest (method pathname : String) (authed : Bool) : RouteOutcome :=
  if method = "OPTIONS" then .preflight
  else if method = "GET" ∧ pathname = "/health" then .healthOk
  else if method = "GET" ∧ pathname = "/admin" then .adminHtml
  else if method = "GET" ∧ pathname = "/admin/data" then
    (if authed then .adminData else .unauthorized)
  else if method = "POST" ∧ pathname = "/admin/proxy" then
    (if authed then .adminProxyConfig else .unauthorized)
  else if method = "POST" ∧ pathname = "/admin/usage/refresh" then
    (if authed then .adminUsageRefresh else .unauthorized)
  else if method = "POST" ∧ pathname = "/admin/account" then
    (if authed then .adminAccountImport else .unauthorized)
  else if method = "DELETE" ∧ pathname = "/admin/account" then
    (if authed then .adminAccountDelete else .unauthorized)
  else if method = "GET" ∧ pathname = "/v1/models" then
    (if authed then .modelList else .unauthorized)
  else if method ≠ "POST" then .notFound
  else if ¬ authed then .unauthorized
  else .dispatchChat

/-- True for the outcomes an unauthorised request can reach: the CORS
preflight, `/health`, the unauthenticated portal HTML, 401 and 404 — in
particular no protected handler. -/
def isUnprotectedOutcome : RouteOutcome → Bool
  | .preflight | .healthOk | .adminHtml | .unauthorized | .notFound => true
  | _ => false

/-- JavaScript `v || d` on an optional number: `0` is falsy. -/
def jsOrNat (v : Option Nat) (d : Nat) : Nat :=
  match v with
  | some n => if n = 0 then d else n
  | none => d

/-- What the adapter does with one failed upstream attempt. -/
inductive RetryAction
  | refreshAndRetry
  | backoffRetry (delayMs : Nat)
  | surface
deriving DecidableEq

/-- True when `error.response?.status >= 500` (false when there is no
response status, as `undefined >= 500` is false). -/
def statusAtLeast500 : Option Nat → Bool
  | some s => decide (500 ≤ s)
  | none => false

/-- Shallow embedding of the `catch` block of `KiroApiService.callApi`
(unary path): 403 on a non-retry call forces a refresh and one retry;
429 or 5xx backs off `1000 * 2 ^ retryCount` with `maxRetries = 3`;
everything else is rethrown. -/
def callApiRetryAction (status : Option Nat) (isRetry : Bool) (retryCount : Nat) :
    RetryAction :=
  if status = some 403 ∧ isRetry = false then RetryAction.refreshAndRetry
  else if (status = some 429 ∨ statusAtLeast500 status = true) ∧ retryCount < 3 then
    RetryAction.backoffRetry (1000 * 2 ^ retryCount)
  else RetryAction.surface

/-- Shallow embedding of the `catch` block of
`KiroApiService.streamApiReal` (streaming path): 403 on a non-retry call
forces a refresh and one retry; only 429 backs off
`baseDelay * 2 ^ retryCount` (`REQUEST_MAX_RETRIES || 3`,
`REQUEST_BASE_DELAY || 1000`); everything else is rethrown. -/
def streamApiRetryAction (cfgMaxRetries cfgBaseDelay : Option Nat)
    (status : Option Nat) (isRetry : Bool) (retryCount : Nat) : RetryAction :=
  let maxRetries := jsOrNat cfgMaxRetries 3
  let baseDelay := jsOrNat cfgBaseDelay 1000
  if status = some 403 ∧ isRetry = false then RetryAction.refreshAndRetry
  else if status = some 429 ∧ retryCount < maxRetries then
    RetryAction.backoffRetry (baseDelay * 2 ^ retryCount)
  else RetryAction.surface

/-- Credential fields of one pooled account that the dispatcher's
refresh step reads and writes. -/
structure AccountCreds where
  accessToken : String
  refreshToken : Option String
  expiresAt : Int
deriving DecidableEq

/-- Result object returned by the injected `refreshAccountToken`. -/
structure RefreshResult where
  accessToken : String
  refreshToken : Option String
  expiresIn : Option Int
deriving DecidableEq

/-- The `updated` record the dispatcher both assigns onto the in-memory
credentials and sends to `updateAccountCredentials`. -/
structure CredUpdate where
  accessToken : String
  refreshToken : Option String
  expiresAt : Int
deriving DecidableEq

/-- Shallow embedding of the dispatcher's refresh step in
`startKiroProxyServer`: `if (!refreshed.accessToken) throw`, then
`updated = { accessToken, refreshToken: refreshed.refreshToken ??
creds.refreshToken, expiresAt: Date.now() + (refreshed.expiresIn ??
3600) * 1000 }`, `Object.assign(creds, updated)` and the store update.
Returns `none` on the throw, otherwise the new in-memory credentials
paired with the update sent to the store. -/
def applyRefreshResult (creds : AccountCreds) (refreshed : RefreshResult)
    (nowMs : Int) : Option (AccountCreds × CredUpdate) :=
  if refreshed.accessToken = "" then none
  else
    let newRefreshToken :=
      match refreshed.refreshToken with
      | some s => some s
      | none => creds.refreshToken
    let newExpiresAt := nowMs + (refreshed.expiresIn.getD 3600) * 1000
    some ({ accessToken := refreshed.accessToken
            refreshToken := newRefreshToken
            expiresAt := newExpiresAt },
          { accessToken := refreshed.accessToken
            refreshToken := newRefreshToken
            expiresAt := newExpiresAt })

/-- One content part of a public-protocol message (Anthropic block
shape).  The content of a `tool_result` part is modelled as the text
that `safeGetTextContent` extracts from it, which is all the translator
ever reads from it. -/
inductive MPart
  | text (t : String)
  | toolResult (toolUseId : String) (contentText : String)
  | toolUse (id : String) (name : String) (input : String)
  | image (mediaType : String) (data : String)
  | otherPart
deriving DecidableEq

/-- Message content: either a plain string or an array of parts. -/
inductive MContent
  | str (s : String)
  | parts (ps : List MPart)
deriving DecidableEq

/-- One public-protocol message. -/
structure Msg where
  role : String
  content : MContent
deriving DecidableEq

/-- The text-joining branch of `safeGetTextContent`: keep the parts with
`type === 'text'` and truthy `text`, join their texts. -/
def joinTruthyTexts (ps : List MPart) : String :=
  String.join (ps.filterMap fun p =>
    match p with
    | MPart.text t => if t = "" then none else some t
    | _ => none)

/-- Source: `safeGetTextContent(message)` applied to a message object:
string content is returned as is, array content is joined over its text
parts. -/
def safeGetTextContent (m : Msg) : String :=
  match m.content with
  | MContent.str s => s
  | MContent.parts ps => joinTruthyTexts ps

/-- Source: `safeGetTextContent(inSystemPrompt)` on the raw `system`
value (`null`, a string, or an array of blocks). -/
def safeGetTextContentSys : Option MContent → String
  | none => ""
  | some (MContent.str s) => s
  | some (MContent.parts ps) => joinTruthyTexts ps

/-- Source: the adjacent same-role merge in `buildCodewhispererRequest`:
two arrays are concatenated, two strings are joined with a newline, and
mixed forms are unified into an array. -/
def mergeTwoContents : MContent → MContent → MContent
  | MContent.parts a, MContent.parts b => MContent.parts (a ++ b)
  | MContent.str a, MContent.str b => MContent.str (a ++ "\n" ++ b)
  | MContent.parts a, MContent.str b => MContent.parts (a ++ [MPart.text b])
  | MContent.str a, MContent.parts b => MContent.parts (MPart.text a :: b)

/-- The `mergedMessages` loop with `cur` holding the last kept message
(the one further messages of the same role merge into, left-associated
exactly as in the loop). -/
def mergeMessagesAux (cur : Msg) : List Msg → List Msg
  | [] => [cur]
  | m :: rest =>
      if m.role = cur.role then
        mergeMessagesAux { role := cur.role, content := mergeTwoContents cur.content m.content } rest
      else
        cur :: mergeMessagesAux m rest

/-- Source: the `mergedMessages` loop of `buildCodewhispererRequest`. -/
def mergeMessages : List Msg → List Msg
  | [] => []
  | m :: rest => mergeMessagesAux m rest

/-- True when `content?.[0]?.type === 'text' && content?.[0]?.text ===
'\x7b'` holds, i.e. the content is an array headed by a text part whose
text is the single brace sentinel. -/
def headPartIsBraceText : MContent → Bool
  | MContent.parts (MPart.text t :: _) => t = "\x7b"
  | _ => false

/-- Source: the trailing-assistant-brace pop at the top of
`buildCodewhispererRequest`. -/
def dropTrailingBrace (messages : List Msg) : List Msg :=
  match messages.getLast? with
  | some last =>
      if last.role = "assistant" ∧ headPartIsBraceText last.content then messages.dropLast
      else messages
  | none => messages

/-- Tool use recorded on an assistant history entry. -/
structure ToolUseE where
  toolUseId : String
  name : String
  input : String
deriving DecidableEq

/-- Tool result recorded on a user history entry (`status` is always
`"success"` in the source and is omitted). -/
structure ToolResultE where
  toolUseId : String
  text : String
deriving DecidableEq

/-- Image attached to a user history entry. -/
structure ImageE where
  format : String
  bytes : String
deriving DecidableEq

/-- The `userInputMessage` payload of a history entry or of
`currentMessage` (the constant `modelId`/`origin` fields are omitted). -/
structure UserMsgE where
  content : String
  images : List ImageE
  toolResults : List ToolResultE
deriving DecidableEq

/-- The `assistantResponseMessage` payload of a history entry. -/
structure AsstMsgE where
  content : String
  toolUses : List ToolUseE
deriving DecidableEq

/-- One entry of `conversationState.history`. -/
inductive HEntry
  | userInputMessage (m : UserMsgE)
  | assistantResponseMessage (m : AsstMsgE)
deriving DecidableEq

/-- Kind discriminator of a history entry (`true` = user turn). -/
def HEntry.isUserKind : HEntry → Bool
  | HEntry.userInputMessage _ => true
  | HEntry.assistantResponseMessage _ => false

/-- JavaScript `media_type.split('/')[1]`. -/
def mediaTypeSuffix (mt : String) : String :=
  ((mt.splitOn "/").drop 1).headD ""

/-- Tool-result dedup by `toolUseId`, first occurrence wins (the
`seenIds` set loop of `buildCodewhispererRequest`). -/
def dedupToolResultsAux : List ToolResultE → List String → List ToolResultE
  | [], _ => []
  | tr :: rest, seen =>
      if tr.toolUseId ∈ seen then dedupToolResultsAux rest seen
      else tr :: dedupToolResultsAux rest (tr.toolUseId :: seen)

/-- Source: the `uniqueToolResults` loops of `buildCodewhispererRequest`. -/
def dedupToolResults (l : List ToolResultE) : List ToolResultE :=
  dedupToolResultsAux l []

/-- Source: the user-message branch of the history loop (and the
identical collection for a non-assistant `currentMessage`): concatenate
text parts, collect images and deduplicated tool results. -/
def userFromMsg (m : Msg) : UserMsgE :=
  match m.content with
  | MContent.parts ps =>
      { content := String.join (ps.filterMap fun p =>
          match p with | MPart.text t => some t | _ => none)
        images := ps.filterMap fun p =>
          match p with
          | MPart.image mt d => some ⟨mediaTypeSuffix mt, d⟩
          | _ => none
        toolResults := dedupToolResults (ps.filterMap fun p =>
          match p with
          | MPart.toolResult id c => some ⟨id, c⟩
          | _ => none) }
  | MContent.str _ => { content := safeGetTextContent m, images := [], toolResults := [] }

/-- Source: the assistant-message branch of the history loop (and of the
`currentMessage` handling): concatenate text parts and collect tool
uses. -/
def asstFromMsg (m : Msg) : AsstMsgE :=
  match m.content with
  | MContent.parts ps =>
      { content := String.join (ps.filterMap fun p =>
          match p with | MPart.text t => some t | _ => none)
        toolUses := ps.filterMap fun p =>
          match p with
          | MPart.toolUse id name input => some ⟨id, name, input⟩
          | _ => none }
  | MContent.str _ => { content := safeGetTextContent m, toolUses := [] }

/-- One iteration of the history loop of `buildCodewhispererRequest`:
a user turn or an assistant turn becomes an entry, any other role is
skipped. -/
def midEntry (m : Msg) : Option HEntry :=
  if m.role = "user" then some (HEntry.userInputMessage (userFromMsg m))
  else if m.role = "assistant" then some (HEntry.assistantResponseMessage (asstFromMsg m))
  else none

/-- Tool specification attached to `userInputMessageContext.tools`
(schema payload omitted). -/
structure ToolSpec where
  name : String
  description : String
deriving DecidableEq

/-- The parts of the built Kiro request the claims are about:
`conversationState.history`, `currentMessage.userInputMessage`, the
attached tool specs, and whether `profileArn` is set at the root. -/
structure KiroRequest where
  history : List HEntry
  currentMessage : UserMsgE
  tools : List ToolSpec
  profileArn : Bool
deriving DecidableEq

/-- True when the last entry of the list is an assistant turn
(`lastHistoryItem.assistantResponseMessage` truthiness). -/
def lastEntryIsAssistant (l : List HEntry) : Bool :=
  match l.getLast? with
  | some (HEntry.assistantResponseMessage _) => true
  | _ => false

/-- The history entry a message with role `user` or `assistant` becomes
in the history loop (any other role is skipped by `midEntry`; `msgEntry`
is the total version used to reason about role-restricted inputs: a
non-user role takes the assistant branch). -/
def msgEntry (m : Msg) : HEntry :=
  if m.role = "user" then HEntry.userInputMessage (userFromMsg m)
  else HEntry.assistantResponseMessage (asstFromMsg m)

/-- The system-prompt head entries of the history (`history.push` at
the top of `buildCodewhispererRequest`): the system text folded into the
first user message, or a standalone user-style entry, or nothing. -/
def startEntriesOf (first : Msg) (systemPrompt : String) : List HEntry :=
  if systemPrompt ≠ "" then
    if first.role = "user" then
      [HEntry.userInputMessage ⟨systemPrompt ++ "\n\n" ++ safeGetTextContent first, [], []⟩]
    else
      [HEntry.userInputMessage ⟨systemPrompt, [], []⟩]
  else []

/-- The `startIndex` of the history loop: 1 exactly when the system
prompt was folded into the first user message. -/
def startIndexOf (first : Msg) (systemPrompt : String) : Nat :=
  if systemPrompt ≠ "" ∧ first.role = "user" then 1 else 0

/-- The synthetic assistant `{content:"Continue"}` injected before
`currentMessage` when the history is non-empty and its last entry is not
an assistant turn. -/
def injectContinue (base : List HEntry) : List HEntry :=
  base ++
    (if base ≠ [] ∧ lastEntryIsAssistant base = false then
      [HEntry.assistantResponseMessage ⟨"Continue", []⟩]
    else [])

/-- The `history` array built by `buildCodewhispererRequest` for the
non-empty merged message list `first :: rest`: the system-prompt head
entries, the history loop over the non-terminal messages, then either
the trailing assistant message pushed onto history (with
`currentMessage` becoming a synthetic `"Continue"`), or the synthetic
assistant `"Continue"` injection. -/
def buildHistory (first : Msg) (rest : List Msg) (systemPrompt : String) : List HEntry :=
  let msgs := first :: rest
  let middle := ((msgs.drop (startIndexOf first systemPrompt)).dropLast).filterMap midEntry
  let lastMsg := msgs.getLast (List.cons_ne_nil _ _)
  if lastMsg.role = "assistant" then
    startEntriesOf first systemPrompt ++ middle ++
      [HEntry.assistantResponseMessage (asstFromMsg lastMsg)]
  else
    injectContinue (startEntriesOf first systemPrompt ++ middle)

/-- The `currentMessage.userInputMessage` built by
`buildCodewhispererRequest` for the non-empty merged list
`first :: rest`: a synthetic `"Continue"` user message when the final
message is an assistant turn, otherwise the final message's collected
content with the empty-content defaults. -/
def buildCurrentMessage (first : Msg) (rest : List Msg) : UserMsgE :=
  let lastMsg := (first :: rest).getLast (List.cons_ne_nil _ _)
  if lastMsg.role = "assistant" then ⟨"Continue", [], []⟩
  else
    let cur := userFromMsg lastMsg
    { cur with
      content :=
        if cur.content = "" then
          if cur.toolResults ≠ [] then "Tool results provided." else "Continue"
        else cur.content }

/-- Shallow embedding of `KiroApiService.buildCodewhispererRequest`.
Thrown exceptions become `Except.error`: the explicit
`'No user messages found'` throw, and the `TypeError` that dereferencing
`processedMessages[-1]` raises when the trailing-brace pop empties the
list.  `authSocial` is `authMethod === 'social'`. -/
def buildCodewhispererRequest (messages : List Msg) (tools : List ToolSpec)
    (system : Option MContent) (authSocial : Bool) : Except String KiroRequest :=
  if messages.isEmpty then Except.error "No user messages found"
  else
    match mergeMessages (dropTrailingBrace messages) with
    | [] => Except.error "TypeError: Cannot read properties of undefined"
    | first :: rest =>
      Except.ok
        { history := buildHistory first rest (safeGetTextContentSys system)
          currentMessage := buildCurrentMessage first rest
          tools := tools
          profileArn := authSocial }

/-- History of a translation result, empty when the translator threw. -/
def historyOf : Except String KiroRequest → List HEntry
  | Except.ok r => r.history
  | Except.error _ => []

/-- JavaScript `\s` on the ASCII range. -/
def jsWs (c : Char) : Bool :=
  c == ' ' || c == '\t' || c == '\n' || c == '\r' || c == '\x0B' || c == '\x0C'

/-- JavaScript `\w`: ASCII letters, digits and underscore. -/
def isWordChar (c : Char) : Bool :=
  c.isAlphanum || c == '_'

/-- Scanner of `findMatchingBracket` after the opening bracket:
`bracketCount` starts at 1, with string- and backslash-awareness exactly
as in the source loop. -/
def findMatchingBracketAux : List Char → Nat → Nat → Bool → Bool → Option Nat
  | [], _, _, _, _ => none
  | c :: rest, i, bracketCount, inString, escapeNext =>
      if escapeNext then
        findMatchingBracketAux rest (i + 1) bracketCount inString false
      else if c = '\\' ∧ inString = true then
        findMatchingBracketAux rest (i + 1) bracketCount inString true
      else if c = '"' then
        findMatchingBracketAux rest (i + 1) bracketCount (!inString) false
      else if inString = false ∧ c = '[' then
        findMatchingBracketAux rest (i + 1) (bracketCount + 1) inString false
      else if inString = false ∧ c = ']' then
        if bracketCount = 1 then some i
        else findMatchingBracketAux rest (i + 1) (bracketCount - 1) inString false
      else
        findMatchingBracketAux rest (i + 1) bracketCount inString false

/-- Source: `findMatchingBracket(text, startPos, '[', ']')`, returning
the index of the matching close bracket (`none` for the source's `-1`). -/
def findMatchingBracket (text : List Char) (startPos : Nat) : Option Nat :=
  if startPos < text.length ∧ text.getD startPos ' ' = '[' then
    findMatchingBracketAux (text.drop (startPos + 1)) (startPos + 1) 1 false false
  else none

/-- Consume a pattern case-insensitively; `none` when it does not match. -/
def stripCI : List Char → List Char → Option (List Char)
  | [], l => some l
  | _, [] => none
  | p :: ps, c :: cs => if p.toLower = c.toLower then stripCI ps cs else none

/-- Require at least one `\s` character and skip the whole run. -/
def skipWs1 : List Char → Option (List Char)
  | [] => none
  | c :: rest => if jsWs c then some (rest.dropWhile jsWs) else none

/-- Require at least one `\w` character; return the greedy run and the
rest. -/
def takeWord1 (l : List Char) : Option (String × List Char) :=
  let w := l.takeWhile isWordChar
  if w.isEmpty then none else some (String.mk w, l.dropWhile isWordChar)

/-- Match the source's name pattern `\[Called\s+(\w+)\s+with\s+args:`
(case-insensitive) at the head of the text and return the captured name.
The `\w+` capture is taken greedily; on every input the theorems below
evaluate, this coincides with the regex engine's backtracking search. -/
def matchCalledPatternAt (l : List Char) : Option String := do
  let l1 ← stripCI "[Called".toList l
  let l2 ← skipWs1 l1
  let (name, l3) ← takeWord1 l2
  let l4 ← skipWs1 l3
  let l5 ← stripCI "with".toList l4
  let l6 ← skipWs1 l5
  let _ ← stripCI "args:".toList l6
  pure name

/-- Scan for the first position where the name pattern matches
(`toolCallText.match(namePattern)`). -/
def findCalledName : List Char → Option String
  | [] => none
  | c :: rest =>
      match matchCalledPatternAt (c :: rest) with
      | some n => some n
      | none => findCalledName rest

/-- Case-insensitive prefix test. -/
def startsWithCI : List Char → List Char → Bool
  | [], _ => true
  | _ :: _, [] => false
  | p :: ps, c :: cs => p.toLower == c.toLower && startsWithCI ps cs

/-- Case-insensitive `indexOf` (the source lowercases both sides). -/
def indexOfCIAux (pat : List Char) : List Char → Nat → Option Nat
  | [], _ => none
  | c :: rest, i =>
      if startsWithCI pat (c :: rest) then some i
      else indexOfCIAux pat rest (i + 1)

/-- JavaScript `lastIndexOf` for a single character (`none` for `-1`). -/
def lastIndexOfChar (c : Char) (l : List Char) : Option Nat :=
  ((l.enum.filter fun p => p.2 == c).map fun p => p.1).getLast?

/-- JavaScript `String.prototype.trim` on a character list. -/
def trimChars (l : List Char) : List Char :=
  ((l.dropWhile jsWs).reverse.dropWhile jsWs).reverse

/-- First regex pass of `repairJson`: drop a comma standing (up to
whitespace) before a closing brace or bracket, whitespace included.
The fuel argument only drives structural recursion; every step consumes
at least one character, so `fuel = length` never runs out. -/
def repairPass1 : Nat → List Char → List Char
  | 0, l => l
  | _ + 1, [] => []
  | fuel + 1, c :: rest =>
      if c = ',' then
        match rest.dropWhile jsWs with
        | c2 :: rest3 =>
            if c2 = '}' ∨ c2 = ']' then c2 :: repairPass1 fuel rest3
            else c :: repairPass1 fuel rest
        | [] => c :: repairPass1 fuel rest
      else c :: repairPass1 fuel rest

/-- Second regex pass of `repairJson`: after `{` or `,`, quote a bare
key standing before a colon (the whitespace between key and colon is
dropped, as in the replacement `$1"$2":`).  Fuel as in the first
pass. -/
def repairPass2 : Nat → List Char → List Char
  | 0, l => l
  | _ + 1, [] => []
  | fuel + 1, c :: rest =>
      if c = '{' ∨ c = ',' then
        let ws1 := rest.takeWhile jsWs
        let r1 := rest.dropWhile jsWs
        let word := r1.takeWhile isWordChar
        let r2 := r1.dropWhile isWordChar
        match word, r2.dropWhile jsWs with
        | _ :: _, ':' :: r4 =>
            c :: (ws1 ++ ('"' :: word) ++ ('"' :: ':' :: repairPass2 fuel r4))
        | _, _ => c :: repairPass2 fuel rest
      else c :: repairPass2 fuel rest

/-- Third regex pass of `repairJson`: after a colon, quote a bare word
value when the lookahead character is `,`, `}` or `]` (the lookahead is
not consumed; the whitespace after the colon is dropped, as in the
replacement `:"$1"`).  Fuel as in the first pass. -/
def repairPass3 : Nat → List Char → List Char
  | 0, l => l
  | _ + 1, [] => []
  | fuel + 1, c :: rest =>
      if c = ':' then
        let r1 := rest.dropWhile jsWs
        let word := r1.takeWhile isWordChar
        let r2 := r1.dropWhile isWordChar
        match word, r2 with
        | _ :: _, c2 :: _ =>
            if c2 = ',' ∨ c2 = '}' ∨ c2 = ']' then
              c :: ('"' :: word) ++ ('"' :: repairPass3 fuel r2)
            else c :: repairPass3 fuel rest
        | _, _ => c :: repairPass3 fuel rest
      else c :: repairPass3 fuel rest

/-- Source: `repairJson` — the three global regex replaces in order. -/
def repairJson (l : List Char) : List Char :=
  let p1 := repairPass1 l.length l
  let p2 := repairPass2 p1.length p1
  repairPass3 p2.length p2

/-- A tool call in the OpenAI-function shape used by the parsers
(`{id, type:'function', function:{name, arguments}}`; the constant
`type` field is omitted, `id` is the external uuid modelled by a fixed
placeholder). -/
structure ToolCallF where
  id : String
  name : String
  arguments : String
deriving DecidableEq

/-- Source: `parseSingleToolCall(toolCallText)`.  `jnorm` is the
external runtime's `JSON.stringify(JSON.parse ·)` roundtrip, `none` when
`JSON.parse` throws or yields a non-object. -/
def parseSingleToolCall (jnorm : String → Option String) (callText : List Char) :
    Option ToolCallF :=
  match findCalledName callText with
  | none => none
  | some functionName =>
      match indexOfCIAux "with args:".toList callText 0 with
      | none => none
      | some argsStartPos =>
          let argsStart := argsStartPos + 10
          match lastIndexOfChar ']' callText with
          | none => none
          | some argsEnd =>
              if argsEnd ≤ argsStart then none
              else
                let jsonCandidate := trimChars ((callText.take argsEnd).drop argsStart)
                match jnorm (String.mk (repairJson jsonCandidate)) with
                | some args => some ⟨"call_gen", functionName, args⟩
                | none => none

/-- All positions where the literal `[Called` occurs (the source's
`indexOf` loop). -/
def calledPositions (text : List Char) : List Nat :=
  (List.range text.length).filter fun p => (text.drop p).take 7 = "[Called".toList

/-- Source: `parseBracketToolCalls(responseText)`; the source's `null`
results are modelled by the empty list. -/
def parseBracketToolCalls (jnorm : String → Option String) (responseText : String) :
    List ToolCallF :=
  let l := responseText.toList
  (calledPositions l).filterMap fun pos =>
    match findMatchingBracket l pos with
    | none => none
    | some endPos => parseSingleToolCall jnorm ((l.drop pos).take (endPos + 1 - pos))

/-- Dedup key `name-arguments` of `deduplicateToolCalls`. -/
def toolCallKey (tc : ToolCallF) : String :=
  tc.name ++ "-" ++ tc.arguments

/-- The `seen`-set loop of `deduplicateToolCalls`. -/
def deduplicateToolCallsAux : List ToolCallF → List String → List ToolCallF
  | [], _ => []
  | tc :: rest, seen =>
      if toolCallKey tc ∈ seen then deduplicateToolCallsAux rest seen
      else tc :: deduplicateToolCallsAux rest (toolCallKey tc :: seen)

/-- Source: `deduplicateToolCalls(toolCalls)` — first occurrence of each
`name-arguments` key wins. -/
def deduplicateToolCalls (l : List ToolCallF) : List ToolCallF :=
  deduplicateToolCallsAux l []

/-- One event yielded by `parseAwsEventStreamBuffer` and re-yielded by
`streamApiReal` (fields normalised as in the source: missing `input`
becomes `""`, missing `stop` becomes `false`). -/
inductive UpEvent
  | content (data : String)
  | toolUse (name : String) (toolUseId : String) (input : String) (stop : Bool)
  | toolUseInput (input : String)
  | toolUseStop (stop : Bool)
deriving DecidableEq

/-- Source: the event loop of `KiroApiService.streamApiReal`: an empty
content payload is not yielded, a content payload equal to
`lastContentEvent` is skipped, and every other event passes through. -/
def streamApiRealEvents : List UpEvent → Option String → List UpEvent
  | [], _ => []
  | UpEvent.content s :: rest, lastContentEvent =>
      if s = "" then streamApiRealEvents rest lastContentEvent
      else if lastContentEvent = some s then streamApiRealEvents rest lastContentEvent
      else UpEvent.content s :: streamApiRealEvents rest (some s)
  | e :: rest, lastContentEvent => e :: streamApiRealEvents rest lastContentEvent

/-- Accumulated tool-call input: still the raw concatenated string, or
the value produced by a successful `JSON.parse`, represented by its
canonical `JSON.stringify` form. -/
inductive TCInput
  | raw (s : String)
  | jsonVal (canonical : String)
deriving DecidableEq

/-- A finished tool call accumulated by `generateContentStream`. -/
structure SToolCall where
  toolUseId : String
  name : String
  input : TCInput
deriving DecidableEq

/-- The `currentToolCall` accumulator of `generateContentStream`. -/
structure CurTool where
  toolUseId : String
  name : String
  input : String
deriving DecidableEq

/-- The `try JSON.parse / catch keep raw` finalisation of a tool call's
accumulated input; `jnorm` is the external JSON roundtrip. -/
def finalizeToolInput (jnorm : String → Option String) (s : String) : TCInput :=
  match jnorm s with
  | some c => TCInput.jsonVal c
  | none => TCInput.raw s

/-- Finalise the open `currentToolCall`. -/
def finalizeCurTool (jnorm : String → Option String) (c : CurTool) : SToolCall :=
  ⟨c.toolUseId, c.name, finalizeToolInput jnorm c.input⟩

/-- One Anthropic SSE chunk yielded by `generateContentStream` (ids,
model name and token counts are carried by the source objects but play
no role in any claim and are omitted, except the tool-use block id). -/
inductive AChunk
  | messageStart
  | contentBlockStartText (index : Nat)
  | contentBlockDeltaText (index : Nat) (text : String)
  | contentBlockStop (index : Nat)
  | contentBlockStartTool (index : Nat) (id : String) (name : String)
  | contentBlockDeltaJson (index : Nat) (partialJson : String)
  | messageDelta (stopReason : String)
  | messageStop
deriving DecidableEq

/-- The mutable state of the `for await` loop of
`generateContentStream`. -/
structure GenState where
  started : Bool
  totalContent : String
  toolCalls : List SToolCall
  cur : Option CurTool
deriving DecidableEq

/-- One iteration of the `for await` loop of `generateContentStream`:
the lazily-emitted `message_start` / `content_block_start` pair on the
first event, text deltas for non-empty content, and the tool-call
accumulation (which emits nothing during the loop). -/
def genStep (jnorm : String → Option String) (st : GenState) (e : UpEvent) :
    GenState × List AChunk :=
  let startChunks : List AChunk :=
    if st.started then [] else [AChunk.messageStart, AChunk.contentBlockStartText 0]
  let st1 := { st with started := true }
  match e with
  | UpEvent.content s =>
      if s = "" then (st1, startChunks)
      else ({ st1 with totalContent := st1.totalContent ++ s },
            startChunks ++ [AChunk.contentBlockDeltaText 0 s])
  | UpEvent.toolUse name toolUseId input stop =>
      if name = "" ∨ toolUseId = "" then (st1, startChunks)
      else
        let st2 :=
          match st1.cur with
          | some c =>
              if c.toolUseId = toolUseId then
                { st1 with cur := some { c with input := c.input ++ input } }
              else
                { st1 with toolCalls := st1.toolCalls ++ [finalizeCurTool jnorm c]
                           cur := some ⟨toolUseId, name, input⟩ }
          | none => { st1 with cur := some ⟨toolUseId, name, input⟩ }
        if stop then
          match st2.cur with
          | some c =>
              ({ st2 with toolCalls := st2.toolCalls ++ [finalizeCurTool jnorm c], cur := none },
               startChunks)
          | none => (st2, startChunks)
        else (st2, startChunks)
  | UpEvent.toolUseInput input =>
      match st1.cur with
      | some c => ({ st1 with cur := some { c with input := c.input ++ input } }, startChunks)
      | none => (st1, startChunks)
  | UpEvent.toolUseStop stop =>
      if stop then
        match st1.cur with
        | some c =>
            ({ st1 with toolCalls := st1.toolCalls ++ [finalizeCurTool jnorm c], cur := none },
             startChunks)
        | none => (st1, startChunks)
      else (st1, startChunks)

/-- The whole `for await` loop, returning the final state and the chunks
emitted during the loop. -/
def genLoop (jnorm : String → Option String) : List UpEvent → GenState → GenState × List AChunk
  | [], st => (st, [])
  | e :: rest, st =>
      let step := genStep jnorm st e
      let next := genLoop jnorm rest step.1
      (next.1, step.2 ++ next.2)

/-- The tool-block emission loop after the text block: for the i-th
accumulated tool call, a `content_block_start(tool_use)`, one
`input_json_delta` and a `content_block_stop` at block index `i + 1`
(`tool_` uuids modelled by the placeholder `"tool_gen"`). -/
def toolBlocks (tcs : List SToolCall) : List AChunk :=
  tcs.enum.flatMap fun p =>
    [AChunk.contentBlockStartTool (p.1 + 1)
       (if p.2.toolUseId = "" then "tool_gen" else p.2.toolUseId) p.2.name,
     AChunk.contentBlockDeltaJson (p.1 + 1)
       (match p.2.input with
        | TCInput.raw s => s
        | TCInput.jsonVal c => c),
     AChunk.contentBlockStop (p.1 + 1)]

/-- The `toolCalls` list of `generateContentStream` as it stands after
the loop: the finalisation of a still-open tool call, then the
bracketed-text fallback parsed from `totalContent` and appended without
any deduplication (`toolCalls.push(...)` in the source). -/
def gcsFinalToolCalls (jnorm : String → Option String) (events : List UpEvent) :
    List SToolCall :=
  let st := (genLoop jnorm events ⟨false, "", [], none⟩).1
  (match st.cur with
   | some c => st.toolCalls ++ [finalizeCurTool jnorm c]
   | none => st.toolCalls) ++
  (parseBracketToolCalls jnorm st.totalContent).map fun btc =>
    ({ toolUseId := if btc.id = "" then "tool_gen" else btc.id
       name := btc.name
       input := TCInput.jsonVal (if btc.arguments = "" then "\x7b\x7d" else btc.arguments) } : SToolCall)

/-- Shallow embedding of `KiroApiService.generateContentStream` as a
function of the events its inner `streamApiReal` call yields: the loop,
then `content_block_stop(0)`, the tool blocks of the accumulated tool
calls, `message_delta` (whose `stop_reason` is `tool_use` exactly when
`toolCalls` is non-empty) and `message_stop`. -/
def generateContentStream (jnorm : String → Option String) (events : List UpEvent) :
    List AChunk :=
  (genLoop jnorm events ⟨false, "", [], none⟩).2 ++ [AChunk.contentBlockStop 0] ++
    toolBlocks (gcsFinalToolCalls jnorm events) ++
    [AChunk.messageDelta (if (gcsFinalToolCalls jnorm events).isEmpty then "end_turn" else "tool_use"),
     AChunk.messageStop]

/-- The `content` payloads of an event list, in order. -/
def contentPayloads (events : List UpEvent) : List String :=
  events.filterMap fun e =>
    match e with
    | UpEvent.content s => some s
    | _ => none

/-- Specification-side collapse of a payload sequence: drop empty
payloads and payloads equal to the last kept one. -/
def collapseContents : List String → Option String → List String
  | [], _ => []
  | s :: rest, last =>
      if s = "" then collapseContents rest last
      else if last = some s then collapseContents rest last
      else s :: collapseContents rest (some s)

/-- The text payloads of the emitted `content_block_delta` text deltas,
in order. -/
def deltaTexts (chunks : List AChunk) : List String :=
  chunks.filterMap fun ch =>
    match ch with
    | AChunk.contentBlockDeltaText _ t => some t
    | _ => none

/-- Number of `content_block_start(tool_use)` chunks carrying a given
tool name. -/
def countToolStartsNamed (name : String) (chunks : List AChunk) : Nat :=
  (chunks.filter fun ch =>
    match ch with
    | AChunk.contentBlockStartTool _ _ n => n == name
    | _ => false).length

/-- Values of the external `JSON.stringify(JSON.parse ·)` roundtrip on
the concrete strings the closed theorems below exercise: a canonical
flat object is already in stringify form, so the roundtrip returns it
unchanged.  Nothing is assumed about any other input. -/
def jsonNormTest (s : String) : Option String :=
  if s = "\x7b\"q\":\"foo\"\x7d" then some "\x7b\"q\":\"foo\"\x7d"
  else if s = "\x7b\x7d" then some "\x7b\x7d"
  else none

/-- C1: for a failed dispatcher attempt whose response has not started
streaming, the per-status disposition holds: no upstream status sets no
cooldown and answers 502; 400 sets no cooldown and answers 400; 402
marks the account `quota_exhausted` until the first millisecond of the
next calendar month (local time) and the loop continues; any other
status sets `disabledUntil = now + cooldownMs` and the loop continues.
The already-streaming case is the separate claim about stream
termination. -/
theorem c1_error_disposition (now : LocalDate) (cooldownMs : Int)
    (hmonth : now.month0 ≤ 11) :
    errorDisposition none false now cooldownMs = ⟨none, none, none, false, some 502, false⟩ ∧
    errorDisposition (some 400) false now cooldownMs = ⟨none, none, none, false, some 400, false⟩ ∧
    (errorDisposition (some 402) false now cooldownMs =
      ⟨some (getNextMonthStartMs now), some "quota_exhausted",
       some (getNextMonthStartMs now), true, none, false⟩ ∧
     getNextMonthStartMs now =
      localDateToMs
        { year := if now.month0 = 11 then now.year + 1 else now.year
          month0 := if now.month0 = 11 then 0 else now.month0 + 1
          day := 1, hour := 0, minute := 0, second := 0, millis := 0 }) ∧
    (∀ s : Nat, s ≠ 400 → s ≠ 402 →
      errorDisposition (some s) false now cooldownMs =
        ⟨some (localDateToMs now + cooldownMs), none, none, true, none, false⟩) := by
  refine ⟨rfl, rfl, ⟨rfl, ?_⟩, ?_⟩
  · unfold getNextMonthStartMs
    congr 1
    unfold nextMonthStart
    by_cases h : now.month0 = 11
    · simp [h]
    · have hlt : now.month0 + 1 < 12 := by omega
      simp [Nat.div_eq_of_lt hlt, Nat.mod_eq_of_lt hlt, h]
  · intro s h1 h2
    unfold errorDisposition
    simp [h1, h2]

/-- Witness for `c1_error_disposition` at December 15, 2025 10:30 local
time with a 60 s cooldown and upstream status 401. -/
theorem c1_error_disposition_witness :
    errorDisposition (some 401) false ⟨2025, 11, 15, 10, 30, 0, 0⟩ 60000 =
      ⟨some (localDateToMs ⟨2025, 11, 15, 10, 30, 0, 0⟩ + 60000), none, none, true, none, false⟩ ∧
    errorDisposition (some 402) false ⟨2025, 11, 15, 10, 30, 0, 0⟩ 60000 =
      ⟨some (getNextMonthStartMs ⟨2025, 11, 15, 10, 30, 0, 0⟩), some "quota_exhausted",
       some (getNextMonthStartMs ⟨2025, 11, 15, 10, 30, 0, 0⟩), true, none, false⟩ :=
  ⟨(c1_error_disposition ⟨2025, 11, 15, 10, 30, 0, 0⟩ 60000 (by decide)).2.2.2 401
      (by decide) (by decide),
   (c1_error_disposition ⟨2025, 11, 15, 10, 30, 0, 0⟩ 60000 (by decide)).2.2.1.1⟩

/-- C5: once the SSE stream has started writing, every failure
disposition terminates the dispatcher loop, writes no new response, and
closes the connection. -/
theorem c5_stream_started_terminal (statusCode : Option Nat) (now : LocalDate)
    (cooldownMs : Int) :
    (errorDisposition statusCode true now cooldownMs).continueLoop = false ∧
    (errorDisposition statusCode true now cooldownMs).respond = none ∧
    (errorDisposition statusCode true now cooldownMs).closeConnection = true := by
  rcases statusCode with _ | s
  · exact ⟨rfl, rfl, rfl⟩
  · unfold errorDisposition
    by_cases h4 : s = 400 <;> by_cases h2 : s = 402 <;> simp [h4, h2]

/-- C4 counterexample: on the streaming path an upstream 500 at retry
count 0 is surfaced immediately, while the claim (and the unary path)
would back off and retry. -/
theorem c4_counterexample :
    streamApiRetryAction none none (some 500) false 0 = RetryAction.surface ∧
    callApiRetryAction (some 500) false 0 = RetryAction.backoffRetry 1000 ∧
    RetryAction.surface ≠ RetryAction.backoffRetry 1000 := by
  refine ⟨by decide, by decide, by decide⟩

/-- C4 amended: within one adapter call, a 403 on a non-retry attempt
forces one refresh-and-retry and a retried 403 is surfaced, on both
paths; the unary path backs off `1000 * 2 ^ n` on 429 and on every 5xx
for at most 3 retries and surfaces everything else; the streaming path
backs off only on 429 (`baseDelay * 2 ^ n`, `REQUEST_MAX_RETRIES || 3`)
and surfaces every 5xx immediately. -/
theorem c4_amended_retry_policy (b : Bool) (n : Nat) (cfgM cfgB : Option Nat) :
    callApiRetryAction (some 403) false n = RetryAction.refreshAndRetry ∧
    callApiRetryAction (some 403) true n = RetryAction.surface ∧
    (∀ k, k < 3 → callApiRetryAction (some 429) b k = RetryAction.backoffRetry (1000 * 2 ^ k)) ∧
    (∀ s k, 500 ≤ s → k < 3 →
      callApiRetryAction (some s) b k = RetryAction.backoffRetry (1000 * 2 ^ k)) ∧
    (∀ s k, 3 ≤ k → (s = 429 ∨ 500 ≤ s) → callApiRetryAction (some s) b k = RetryAction.surface) ∧
    (∀ s, s ≠ 403 → s ≠ 429 → s < 500 → callApiRetryAction (some s) b n = RetryAction.surface) ∧
    callApiRetryAction none b n = RetryAction.surface ∧
    streamApiRetryAction cfgM cfgB (some 403) false n = RetryAction.refreshAndRetry ∧
    streamApiRetryAction cfgM cfgB (some 403) true n = RetryAction.surface ∧
    (∀ k, k < jsOrNat cfgM 3 →
      streamApiRetryAction cfgM cfgB (some 429) b k =
        RetryAction.backoffRetry (jsOrNat cfgB 1000 * 2 ^ k)) ∧
    (∀ s k, 500 ≤ s → streamApiRetryAction cfgM cfgB (some s) b k = RetryAction.surface) := by
  refine ⟨?_, ?_, ?_, ?_, ?_, ?_, ?_, ?_, ?_, ?_, ?_⟩
  · simp [callApiRetryAction]
  · simp [callApiRetryAction, statusAtLeast500]
  · intro k hk
    simp [callApiRetryAction, hk]
  · intro s k hs hk
    have h403 : ¬ s = 403 := by omega
    simp [callApiRetryAction, statusAtLeast500, hs, hk, h403]
  · intro s k hk hs
    have hk3 : ¬ k < 3 := by omega
    rcases hs with hs | hs
    · subst hs
      simp [callApiRetryAction, hk3]
    · have h403 : ¬ s = 403 := by omega
      simp [callApiRetryAction, hk3, h403]
  · intro s h1 h2 h3
    have h5 : ¬ 500 ≤ s := by omega
    simp [callApiRetryAction, statusAtLeast500, h1, h2, h5]
  · simp [callApiRetryAction, statusAtLeast500]
  · simp [streamApiRetryAction]
  · simp [streamApiRetryAction]
  · intro k hk
    simp [streamApiRetryAction, hk]
  · intro s k hs
    have h403 : ¬ s = 403 := by omega
    have h429 : ¬ s = 429 := by omega
    simp [streamApiRetryAction, h403, h429]

/-- Witness for `c4_amended_retry_policy`: the unary path backs off 2 s
on a 503 at retry count 1; the streaming path surfaces the same 503. -/
theorem c4_amended_retry_policy_witness :
    callApiRetryAction (some 503) false 1 = RetryAction.backoffRetry 2000 ∧
    streamApiRetryAction none none (some 503) false 1 = RetryAction.surface :=
  ⟨(c4_amended_retry_policy false 0 none none).2.2.2.1 503 1 (by decide) (by decide),
   (c4_amended_retry_policy false 1 none none).2.2.2.2.2.2.2.2.2.2 503 1 (by decide)⟩

/-- C9 counterexample: an empty `messages` array makes the translator
throw `'No user messages found'`, an error that carries no upstream
HTTP status, so the dispatcher answers 502 — not 400 as claimed. -/
theorem c9_counterexample :
    buildCodewhispererRequest [] [] none false = Except.error "No user messages found" ∧
    (errorDisposition none false ⟨2025, 5, 1, 0, 0, 0, 0⟩ 60000).respond = some 502 ∧
    (some 502 : Option Nat) ≠ some 400 := by
  refine ⟨rfl, rfl, by decide⟩

/-- C9 amended: for every chat-completion request with an empty
`messages` array the translator throws `'No user messages found'`; the
error carries no upstream HTTP status, so the dispatcher's no-status
branch answers 502 and the chosen account is not penalised: no cooldown
entry is created and its status is unchanged. -/
theorem c9_amended_empty_messages (tools : List ToolSpec) (system : Option MContent)
    (authSocial : Bool) (now : LocalDate) (cooldownMs : Int) :
    buildCodewhispererRequest [] tools system authSocial =
      Except.error "No user messages found" ∧
    errorDisposition none false now cooldownMs =
      ⟨none, none, none, false, some 502, false⟩ :=
  ⟨rfl, rfl⟩

/-- C10: a successful dispatcher refresh never loses the stored refresh
token: when the refresher returns no new refresh token the previous one
is kept, any account holding a refresh token still holds one afterwards,
and the in-memory snapshot agrees with the update sent to the store. -/
theorem c10_refresh_token_preserved (creds : AccountCreds) (refreshed : RefreshResult)
    (nowMs : Int) (newCreds : AccountCreds) (update : CredUpdate)
    (h : applyRefreshResult creds refreshed nowMs = some (newCreds, update)) :
    (refreshed.refreshToken = none →
      newCreds.refreshToken = creds.refreshToken ∧ update.refreshToken = creds.refreshToken) ∧
    (creds.refreshToken.isSome = true →
      newCreds.refreshToken.isSome = true ∧ update.refreshToken.isSome = true) ∧
    newCreds.refreshToken = update.refreshToken := by
  unfold applyRefreshResult at h
  by_cases hat : refreshed.accessToken = ""
  · simp [hat] at h
  · simp only [hat, if_false, Option.some.injEq, Prod.mk.injEq] at h
    obtain ⟨h1, h2⟩ := h
    subst h1
    subst h2
    rcases hrt : refreshed.refreshToken with _ | s <;>
      rcases hct : creds.refreshToken with _ | t <;>
        simp [hrt, hct]

/-- Witness for `c10_refresh_token_preserved`: a refresher that returns
only a new access token leaves the account's refresh token `"rt"` in
place, in memory and in the store update. -/
theorem c10_refresh_token_preserved_witness :
    ((⟨"newat", some "rt", 3600000⟩ : AccountCreds).refreshToken = some "rt") ∧
    ((⟨"newat", some "rt", 3600000⟩ : CredUpdate).refreshToken = some "rt") :=
  ⟨((c10_refresh_token_preserved ⟨"", some "rt", 0⟩ ⟨"newat", none, none⟩ 0
      ⟨"newat", some "rt", 3600000⟩ ⟨"newat", some "rt", 3600000⟩ rfl).1 rfl).1,
   ((c10_refresh_token_preserved ⟨"", some "rt", 0⟩ ⟨"newat", none, none⟩ 0
      ⟨"newat", some "rt", 3600000⟩ ⟨"newat", some "rt", 3600000⟩ rfl).1 rfl).2⟩

/-- C8 counterexample: with a proxy API key configured and no matching
credential presented, `GET /admin` is still served the portal HTML
(the route has no `isAuthorized` check), not answered 401. -/
theorem c8_counterexample :
    isAuthorized (some "secret") (some "Bearer wrong") none = false ∧
    routeRequest "GET" "/admin" false = RouteOutcome.adminHtml ∧
    RouteOutcome.adminHtml ≠ RouteOutcome.unauthorized := by
  refine ⟨by decide, by decide, by decide⟩

set_option maxHeartbeats 2000000 in
/-- C8 amended: when a proxy API key is configured and a request
presents neither a matching bearer token nor a matching `x-api-key`, no
protected handler runs: the outcome is one of 204 (preflight), 200 on
`/health`, the portal HTML on `GET /admin` (served without any
authorisation check), 404 for other non-`POST` paths, or 401; every
`POST` path is answered 401; `GET /admin` is served the portal HTML
whether or not the request is authorised; and a matching `x-api-key`
(or no configured key at all) authorises a request. -/
theorem c8_amended_authorization (method pathname : String) :
    isUnprotectedOutcome (routeRequest method pathname false) = true ∧
    (method = "POST" → routeRequest method pathname false = RouteOutcome.unauthorized) ∧
    (∀ authed : Bool, routeRequest "GET" "/admin" authed = RouteOutcome.adminHtml) ∧
    (∀ authHeader xkey, isAuthorized none authHeader xkey = true) ∧
    (∀ key : String, key ≠ "" → isAuthorized (some key) none (some key) = true) := by
  refine ⟨?_, ?_, ?_, ?_, ?_⟩
  · unfold routeRequest
    repeat' split
    all_goals first | rfl | (exfalso; simp_all)
  · intro hm
    subst hm
    simp [routeRequest, ite_self]
  · intro authed
    simp [routeRequest]
  · intro authHeader xkey
    rfl
  · intro key hk
    simp [isAuthorized, hk]

/-- Witness for `c8_amended_authorization`: an unauthorised
`POST /v1/chat/completions` is answered 401, and the key `"k"` sent as
`x-api-key` authorises. -/
theorem c8_amended_authorization_witness :
    routeRequest "POST" "/v1/chat/completions" false = RouteOutcome.unauthorized ∧
    isAuthorized (some "k") none (some "k") = true :=
  ⟨(c8_amended_authorization "POST" "/v1/chat/completions").2.1 rfl,
   (c8_amended_authorization "POST" "/v1/chat/completions").2.2.2.2 "k" (by decide)⟩

theorem genStep_started (jnorm : String → Option String) (st : GenState) (e : UpEvent) :
    (genStep jnorm st e).1.started = true := by
  cases e <;> simp only [genStep] <;> (repeat' split) <;> rfl

theorem genStep_out_shape (jnorm : String → Option String) (st : GenState) (e : UpEvent) :
    ∃ ds : List String,
      (genStep jnorm st e).2 =
        (if st.started then ([] : List AChunk)
         else [AChunk.messageStart, AChunk.contentBlockStartText 0]) ++
          ds.map (AChunk.contentBlockDeltaText 0) := by
  cases e with
  | content s =>
      by_cases hs : s = ""
      · exact ⟨[], by simp [genStep, hs]⟩
      · exact ⟨[s], by simp [genStep, hs]⟩
  | toolUse name tid input stop =>
      refine ⟨[], ?_⟩
      simp only [genStep]
      repeat' split
      all_goals simp
  | toolUseInput input =>
      refine ⟨[], ?_⟩
      simp only [genStep]
      repeat' split
      all_goals simp
  | toolUseStop stop =>
      refine ⟨[], ?_⟩
      simp only [genStep]
      repeat' split
      all_goals simp

theorem genLoop_out_deltas (jnorm : String → Option String) (events : List UpEvent) :
    ∀ st : GenState, st.started = true →
      ∃ ds : List String,
        (genLoop jnorm events st).2 = ds.map (AChunk.contentBlockDeltaText 0) := by
  induction events with
  | nil => exact fun st _ => ⟨[], rfl⟩
  | cons e rest ih =>
      intro st hst
      obtain ⟨d1, hd1⟩ := genStep_out_shape jnorm st e
      obtain ⟨d2, hd2⟩ := ih (genStep jnorm st e).1 (genStep_started jnorm st e)
      refine ⟨d1 ++ d2, ?_⟩
      simp [genLoop, hd1, hd2, hst]

theorem genLoop_out_start (jnorm : String → Option String) (e : UpEvent)
    (rest : List UpEvent) (st : GenState) (hst : st.started = false) :
    ∃ ds : List String,
      (genLoop jnorm (e :: rest) st).2 =
        [AChunk.messageStart, AChunk.contentBlockStartText 0] ++
          ds.map (AChunk.contentBlockDeltaText 0) := by
  obtain ⟨d1, hd1⟩ := genStep_out_shape jnorm st e
  obtain ⟨d2, hd2⟩ := genLoop_out_deltas jnorm rest (genStep jnorm st e).1
    (genStep_started jnorm st e)
  refine ⟨d1 ++ d2, ?_⟩
  simp [genLoop, hd1, hd2, hst]

/-- C2 counterexample: on an upstream stream that yields no events,
`generateContentStream` emits `content_block_stop(0)`, `message_delta`
and `message_stop` only — in particular the emitted sequence does not
begin with `message_start`, because `message_start` is emitted lazily on
the first upstream event. -/
theorem c2_counterexample :
    generateContentStream jsonNormTest [] =
      [AChunk.contentBlockStop 0, AChunk.messageDelta "end_turn", AChunk.messageStop] ∧
    (generateContentStream jsonNormTest []).head? ≠ some AChunk.messageStart := by
  refine ⟨rfl, by decide⟩

/-- C2 amended: for every upstream event stream that yields at least one
event, the emitted chunk sequence is exactly `message_start`,
`content_block_start(0, text)`, zero or more text `content_block_delta`s
at index 0, `content_block_stop(0)`, one
`content_block_start(tool_use)` + `input_json_delta` +
`content_block_stop` triple per accumulated tool call, then
`message_delta` whose `stop_reason` is `tool_use` exactly when at least
one tool call was produced (`end_turn` otherwise) and `message_stop`.
On a stream that yields no events the leading `message_start` and
`content_block_start` pair is omitted. -/
theorem c2_amended_stream_shape (jnorm : String → Option String)
    (events : List UpEvent) (h : events ≠ []) :
    ∃ (ds : List String) (tcs : List SToolCall),
      generateContentStream jnorm events =
        [AChunk.messageStart, AChunk.contentBlockStartText 0] ++
          ds.map (AChunk.contentBlockDeltaText 0) ++
          [AChunk.contentBlockStop 0] ++ toolBlocks tcs ++
          [AChunk.messageDelta (if tcs.isEmpty then "end_turn" else "tool_use"),
           AChunk.messageStop] := by
  match events, h with
  | e :: rest, _ =>
      obtain ⟨ds, hds⟩ := genLoop_out_start jnorm e rest ⟨false, "", [], none⟩ rfl
      refine ⟨ds, gcsFinalToolCalls jnorm (e :: rest), ?_⟩
      unfold generateContentStream
      rw [hds]
      try simp [List.append_assoc]

/-- Witness for `c2_amended_stream_shape` at the one-event stream
`[content "hi"]`: the emitted sequence is exactly `message_start`,
`content_block_start`, one text delta, `content_block_stop`,
`message_delta(end_turn)`, `message_stop`. -/
theorem c2_amended_stream_shape_witness :
    ∃ (ds : List String) (tcs : List SToolCall),
      generateContentStream jsonNormTest [UpEvent.content "hi"] =
        [AChunk.messageStart, AChunk.contentBlockStartText 0] ++
          ds.map (AChunk.contentBlockDeltaText 0) ++
          [AChunk.contentBlockStop 0] ++ toolBlocks tcs ++
          [AChunk.messageDelta (if tcs.isEmpty then "end_turn" else "tool_use"),
           AChunk.messageStop] :=
  c2_amended_stream_shape jsonNormTest [UpEvent.content "hi"] (by decide)

theorem contentPayloads_streamApiRealEvents (events : List UpEvent) :
    ∀ last : Option String,
      contentPayloads (streamApiRealEvents events last) =
        collapseContents (contentPayloads events) last := by
  induction events with
  | nil => intro last; rfl
  | cons e rest ih =>
      intro last
      cases e with
      | content s =>
          by_cases hs : s = ""
          · have h1 : streamApiRealEvents (UpEvent.content s :: rest) last =
                streamApiRealEvents rest last := by
              simp [streamApiRealEvents, hs]
            have h3 : collapseContents (contentPayloads (UpEvent.content s :: rest)) last =
                collapseContents (contentPayloads rest) last := by
              have h0 : contentPayloads (UpEvent.content s :: rest) =
                  s :: contentPayloads rest := rfl
              rw [h0]
              simp only [collapseContents, hs, if_true]
            rw [h1, h3, ih]
          · by_cases hl : last = some s
            · have h1 : streamApiRealEvents (UpEvent.content s :: rest) last =
                  streamApiRealEvents rest last := by
                simp [streamApiRealEvents, hs, hl]
              have h3 : collapseContents (contentPayloads (UpEvent.content s :: rest)) last =
                  collapseContents (contentPayloads rest) last := by
                have h0 : contentPayloads (UpEvent.content s :: rest) =
                    s :: contentPayloads rest := rfl
                rw [h0]
                simp only [collapseContents, hs, hl, if_false, if_true]
              rw [h1, h3, ih]
            · have h1 : streamApiRealEvents (UpEvent.content s :: rest) last =
                  UpEvent.content s :: streamApiRealEvents rest (some s) := by
                simp [streamApiRealEvents, hs, hl]
              have h3 : collapseContents (contentPayloads (UpEvent.content s :: rest)) last =
                  s :: collapseContents (contentPayloads rest) (some s) := by
                have h0 : contentPayloads (UpEvent.content s :: rest) =
                    s :: contentPayloads rest := rfl
                rw [h0]
                simp only [collapseContents, hs, hl, if_false, if_true]
              have h2 : contentPayloads
                  (UpEvent.content s :: streamApiRealEvents rest (some s)) =
                  s :: contentPayloads (streamApiRealEvents rest (some s)) := rfl
              rw [h1, h2, h3, ih (some s)]
      | toolUse n t i p => exact ih last
      | toolUseInput i => exact ih last
      | toolUseStop p => exact ih last

theorem streamApiRealEvents_content_ne (events : List UpEvent) :
    ∀ (last : Option String) (s : String),
      UpEvent.content s ∈ streamApiRealEvents events last → s ≠ "" := by
  induction events with
  | nil => intro last s h; simp [streamApiRealEvents] at h
  | cons e rest ih =>
      intro last s h
      cases e with
      | content d =>
          by_cases hd : d = ""
          · exact ih last s (by simpa [streamApiRealEvents, hd] using h)
          · by_cases hl : last = some d
            · exact ih last s (by simpa [streamApiRealEvents, hd, hl] using h)
            · rw [streamApiRealEvents] at h
              simp only [hd, hl, if_false] at h
              rcases List.mem_cons.mp h with hh | hh
              · cases hh; exact hd
              · exact ih (some d) s hh
      | toolUse n t i p =>
          have h2 : UpEvent.content s ∈
              UpEvent.toolUse n t i p :: streamApiRealEvents rest last := h
          rcases List.mem_cons.mp h2 with hh | hh
          · exact absurd hh (by simp)
          · exact ih last s hh
      | toolUseInput i =>
          have h2 : UpEvent.content s ∈
              UpEvent.toolUseInput i :: streamApiRealEvents rest last := h
          rcases List.mem_cons.mp h2 with hh | hh
          · exact absurd hh (by simp)
          · exact ih last s hh
      | toolUseStop p =>
          have h2 : UpEvent.content s ∈
              UpEvent.toolUseStop p :: streamApiRealEvents rest last := h
          rcases List.mem_cons.mp h2 with hh | hh
          · exact absurd hh (by simp)
          · exact ih last s hh

theorem deltaTexts_genStep (jnorm : String → Option String) (st : GenState) (e : UpEvent) :
    deltaTexts ((genStep jnorm st e).2) =
      (match e with
       | UpEvent.content s => if s = "" then [] else [s]
       | _ => []) := by
  cases e with
  | content s =>
      by_cases hs : s = "" <;> by_cases hst : st.started <;>
        simp [genStep, deltaTexts, hs, hst]
  | toolUse n t i p =>
      simp only [genStep]
      repeat' split
      all_goals by_cases hst : st.started <;> simp [deltaTexts, hst]
  | toolUseInput i =>
      simp only [genStep]
      repeat' split
      all_goals by_cases hst : st.started <;> simp [deltaTexts, hst]
  | toolUseStop p =>
      simp only [genStep]
      repeat' split
      all_goals by_cases hst : st.started <;> simp [deltaTexts, hst]

theorem deltaTexts_genLoop (jnorm : String → Option String) (events : List UpEvent)
    (hne : ∀ s, UpEvent.content s ∈ events → s ≠ "") :
    ∀ st : GenState, deltaTexts ((genLoop jnorm events st).2) = contentPayloads events := by
  induction events with
  | nil => intro st; rfl
  | cons e rest ih =>
      intro st
      have hrest : ∀ s, UpEvent.content s ∈ rest → s ≠ "" :=
        fun s hs => hne s (List.mem_cons_of_mem e hs)
      have hstep := deltaTexts_genStep jnorm st e
      cases e with
      | content s =>
          have hs : s ≠ "" := hne s (List.mem_cons_self _ _)
          simp only [genLoop]
          rw [deltaTexts, List.filterMap_append, ← deltaTexts, ← deltaTexts, hstep,
            ih hrest]
          simp [contentPayloads, hs]
      | toolUse n t i p =>
          simp only [genLoop]
          rw [deltaTexts, List.filterMap_append, ← deltaTexts, ← deltaTexts, hstep,
            ih hrest]
          simp [contentPayloads]
      | toolUseInput i =>
          simp only [genLoop]
          rw [deltaTexts, List.filterMap_append, ← deltaTexts, ← deltaTexts, hstep,
            ih hrest]
          simp [contentPayloads]
      | toolUseStop p =>
          simp only [genLoop]
          rw [deltaTexts, List.filterMap_append, ← deltaTexts, ← deltaTexts, hstep,
            ih hrest]
          simp [contentPayloads]

theorem deltaTexts_toolBlocks (tcs : List SToolCall) :
    deltaTexts (toolBlocks tcs) = [] := by
  rw [deltaTexts, toolBlocks, List.filterMap_eq_nil_iff]
  intro ch hch
  rw [List.mem_flatMap] at hch
  obtain ⟨p, _, hp⟩ := hch
  simp only [List.mem_cons, List.not_mem_nil, or_false] at hp
  rcases hp with h | h | h <;> subst h <;> rfl

/-- C3 counterexample: two equal consecutive upstream content deltas
`"a", "a"` reach the client as a single `"a"`, because `streamApiReal`
skips a content payload equal to `lastContentEvent`; the concatenation
of emitted text deltas is `"a"`, not the upstream concatenation
`"aa"`. -/
theorem c3_counterexample :
    String.join (deltaTexts (generateContentStream jsonNormTest
      (streamApiRealEvents [UpEvent.content "a", UpEvent.content "a"] none))) = "a" ∧
    String.join (contentPayloads [UpEvent.content "a", UpEvent.content "a"]) = "aa" ∧
    ("a" : String) ≠ "aa" := by
  refine ⟨rfl, rfl, by decide⟩

/-- C3 amended: across the streaming pipeline, the sequence of emitted
text-delta payloads equals the upstream `content` payload sequence after
dropping empty payloads and payloads equal to the last kept one (the
`lastContentEvent` dedup of `streamApiReal`); in particular order is
preserved, and the concatenations agree likewise. -/
theorem c3_amended_text_preservation (jnorm : String → Option String)
    (events : List UpEvent) :
    deltaTexts (generateContentStream jnorm (streamApiRealEvents events none)) =
      collapseContents (contentPayloads events) none ∧
    String.join
        (deltaTexts (generateContentStream jnorm (streamApiRealEvents events none))) =
      String.join (collapseContents (contentPayloads events) none) := by
  have h1 : deltaTexts (generateContentStream jnorm (streamApiRealEvents events none)) =
      contentPayloads (streamApiRealEvents events none) := by
    unfold generateContentStream
    rw [deltaTexts, List.filterMap_append, List.filterMap_append, List.filterMap_append,
      ← deltaTexts, ← deltaTexts, ← deltaTexts, ← deltaTexts]
    rw [deltaTexts_genLoop jnorm _ (streamApiRealEvents_content_ne events none),
      deltaTexts_toolBlocks]
    simp [deltaTexts]
  rw [h1, contentPayloads_streamApiRealEvents]
  exact ⟨rfl, rfl⟩

theorem deduplicateToolCallsAux_count (l : List ToolCallF) :
    ∀ (seen : List String) (k : String),
      ((deduplicateToolCallsAux l seen).filter fun tc => toolCallKey tc == k).length =
        if k ∈ seen then 0 else if k ∈ l.map toolCallKey then 1 else 0 := by
  induction l with
  | nil =>
      intro seen k
      by_cases h : k ∈ seen <;> simp [deduplicateToolCallsAux, h]
  | cons tc rest ih =>
      intro seen k
      by_cases hseen : toolCallKey tc ∈ seen
      · rw [deduplicateToolCallsAux, if_pos hseen, ih]
        by_cases hk : k ∈ seen
        · simp [hk]
        · have hne : ¬ k = toolCallKey tc := fun he => hk (he ▸ hseen)
          simp [hk, hne]
      · rw [deduplicateToolCallsAux, if_neg hseen]
        by_cases hkey : k = toolCallKey tc
        · subst hkey
          rw [List.filter_cons, if_pos (by simp)]
          rw [List.length_cons, ih]
          simp [hseen]
        · have hkey2 : ¬ toolCallKey tc = k := fun he => hkey he.symm
          rw [List.filter_cons, if_neg (by simp [hkey2])]
          rw [ih]
          by_cases hk : k ∈ seen
          · simp [hk]
          · simp [hk, hkey, hkey2]

/-- C7 amended: the non-streaming path deduplicates tool calls with
`deduplicateToolCalls`, keyed by the string `name + "-" + arguments`:
whenever a key occurs in the structured-parse list and in the
bracketed-fallback list, exactly one tool call with that key survives in
`deduplicateToolCalls(structured ++ bracket)`.  The streaming path
appends the bracketed fallback to `toolCalls` without any
deduplication, so there the same pair surfaces twice. -/
theorem c7_amended_dedup (structured bracket : List ToolCallF) (k : String)
    (h1 : k ∈ structured.map toolCallKey) (h2 : k ∈ bracket.map toolCallKey) :
    ((deduplicateToolCalls (structured ++ bracket)).filter
        fun tc => toolCallKey tc == k).length = 1 := by
  have h := deduplicateToolCallsAux_count (structured ++ bracket) [] k
  rw [deduplicateToolCalls, h]
  have hmem : k ∈ (structured ++ bracket).map toolCallKey := by
    rw [List.map_append, List.mem_append]
    exact Or.inl h1
  rw [if_neg (List.not_mem_nil k), if_pos hmem]

/-- Witness for `c7_amended_dedup`: the call `(search, {"q":"foo"})`
produced by both the structured parse and the bracketed fallback emerges
exactly once from `deduplicateToolCalls`. -/
theorem c7_amended_dedup_witness :
    ((deduplicateToolCalls
        ([⟨"t1", "search", "\x7b\"q\":\"foo\"\x7d"⟩] ++
         [⟨"call_gen", "search", "\x7b\"q\":\"foo\"\x7d"⟩])).filter
      fun tc => toolCallKey tc == "search-\x7b\"q\":\"foo\"\x7d").length = 1 :=
  c7_amended_dedup [⟨"t1", "search", "\x7b\"q\":\"foo\"\x7d"⟩]
    [⟨"call_gen", "search", "\x7b\"q\":\"foo\"\x7d"⟩] "search-\x7b\"q\":\"foo\"\x7d"
    (by decide) (by decide)

/-- C7 counterexample: in the streaming path, the same
`(search, {"q":"foo"})` tool call produced both by the structured event
stream and by the bracketed-text fallback yields two
`content_block_start(tool_use)` blocks (and two identical
`input_json_delta` payloads) — not exactly one as claimed, since
`generateContentStream` never calls `deduplicateToolCalls`. -/
theorem c7_counterexample :
    countToolStartsNamed "search"
      (generateContentStream jsonNormTest
        [UpEvent.content "OK [Called search with args: \x7b\"q\":\"foo\"\x7d]",
         UpEvent.toolUse "search" "t1" "\x7b\"q\":\"foo\"\x7d" true]) = 2 ∧
    ((generateContentStream jsonNormTest
        [UpEvent.content "OK [Called search with args: \x7b\"q\":\"foo\"\x7d]",
         UpEvent.toolUse "search" "t1" "\x7b\"q\":\"foo\"\x7d" true]).filter
      fun ch =>
        match ch with
        | AChunk.contentBlockDeltaJson _ pj => pj == "\x7b\"q\":\"foo\"\x7d"
        | _ => false).length = 2 ∧
    (2 : Nat) ≠ 1 := by
  refine ⟨by decide, by decide, by decide⟩

theorem isUserKind_msgEntry (m : Msg) :
    HEntry.isUserKind (msgEntry m) = decide (m.role = "user") := by
  by_cases h : m.role = "user" <;> simp [msgEntry, HEntry.isUserKind, h]

theorem msgEntry_assistant (m : Msg) (h : m.role = "assistant") :
    msgEntry m = HEntry.assistantResponseMessage (asstFromMsg m) := by
  simp [msgEntry, h]

theorem midEntry_eq_msgEntry (m : Msg) (h : m.role = "user" ∨ m.role = "assistant") :
    midEntry m = some (msgEntry m) := by
  rcases h with h | h <;> simp [midEntry, msgEntry, h]

theorem filterMap_midEntry (l : List Msg)
    (hroles : ∀ m ∈ l, m.role = "user" ∨ m.role = "assistant") :
    l.filterMap midEntry = l.map msgEntry := by
  induction l with
  | nil => rfl
  | cons m rest ih =>
      rw [List.filterMap_cons, midEntry_eq_msgEntry m (hroles m (List.mem_cons_self _ _)),
        List.map_cons, ih fun x hx => hroles x (List.mem_cons_of_mem _ hx)]

theorem kinds_differ (m m2 : Msg) (h1 : m.role = "user" ∨ m.role = "assistant")
    (h2 : m2.role = "user" ∨ m2.role = "assistant") (hne : m.role ≠ m2.role) :
    HEntry.isUserKind (msgEntry m) ≠ HEntry.isUserKind (msgEntry m2) := by
  rw [isUserKind_msgEntry, isUserKind_msgEntry]
  rcases h1 with h1 | h1 <;> rcases h2 with h2 | h2 <;> rw [h1, h2] at hne ⊢ <;> simp_all

theorem chain_kinds_map (l : List Msg)
    (hroles : ∀ m ∈ l, m.role = "user" ∨ m.role = "assistant")
    (hchain : List.Chain' (fun x y => x.role ≠ y.role) l) :
    List.Chain' (fun a b => HEntry.isUserKind a ≠ HEntry.isUserKind b) (l.map msgEntry) := by
  induction l with
  | nil => simp
  | cons m rest ih =>
      cases rest with
      | nil => simp
      | cons m2 rest2 =>
          rw [List.map_cons, List.map_cons, List.chain'_cons]
          rw [List.chain'_cons] at hchain
          have hr2 : ∀ x ∈ m2 :: rest2, x.role = "user" ∨ x.role = "assistant" :=
            fun x hx => hroles x (List.mem_cons_of_mem _ hx)
          refine ⟨kinds_differ m m2 (hroles m (List.mem_cons_self _ _))
            (hr2 m2 (List.mem_cons_self _ _)) hchain.1, ?_⟩
          rw [← List.map_cons]
          exact ih hr2 hchain.2

theorem mergeMessagesAux_roles (p : String → Prop) (l : List Msg) :
    ∀ cur : Msg, p cur.role → (∀ m ∈ l, p m.role) →
      ∀ m ∈ mergeMessagesAux cur l, p m.role := by
  induction l with
  | nil =>
      intro cur hc _ m hm
      rw [mergeMessagesAux] at hm
      simp at hm
      subst hm
      exact hc
  | cons a rest ih =>
      intro cur hc hl m hm
      rw [mergeMessagesAux] at hm
      by_cases h : a.role = cur.role
      · rw [if_pos h] at hm
        exact ih { role := cur.role, content := mergeTwoContents cur.content a.content }
          hc (fun x hx => hl x (List.mem_cons_of_mem _ hx)) m hm
      · rw [if_neg h] at hm
        rcases List.mem_cons.mp hm with hm | hm
        · subst hm; exact hc
        · exact ih a (hl a (List.mem_cons_self _ _))
            (fun x hx => hl x (List.mem_cons_of_mem _ hx)) m hm

theorem mergeMessagesAux_head_role (l : List Msg) :
    ∀ cur : Msg, ∃ m t, mergeMessagesAux cur l = m :: t ∧ m.role = cur.role := by
  induction l with
  | nil => intro cur; exact ⟨cur, [], rfl, rfl⟩
  | cons a rest ih =>
      intro cur
      rw [mergeMessagesAux]
      by_cases h : a.role = cur.role
      · rw [if_pos h]
        obtain ⟨m, t, hmt, hr⟩ :=
          ih { role := cur.role, content := mergeTwoContents cur.content a.content }
        exact ⟨m, t, hmt, hr⟩
      · rw [if_neg h]
        exact ⟨cur, _, rfl, rfl⟩

theorem mergeMessagesAux_chain (l : List Msg) :
    ∀ cur : Msg, List.Chain' (fun x y => x.role ≠ y.role) (mergeMessagesAux cur l) := by
  induction l with
  | nil => intro cur; rw [mergeMessagesAux]; exact List.chain'_singleton cur
  | cons a rest ih =>
      intro cur
      rw [mergeMessagesAux]
      by_cases h : a.role = cur.role
      · rw [if_pos h]; exact ih _
      · rw [if_neg h]
        rw [List.chain'_cons']
        refine ⟨?_, ih a⟩
        intro y hy
        obtain ⟨m, t, hmt, hr⟩ := mergeMessagesAux_head_role rest a
        rw [hmt] at hy
        simp at hy
        subst hy
        rw [hr]
        exact fun he => h he.symm

theorem mergeMessages_chain (l : List Msg) :
    List.Chain' (fun x y => x.role ≠ y.role) (mergeMessages l) := by
  cases l with
  | nil => exact List.chain'_nil
  | cons a rest => exact mergeMessagesAux_chain rest a

theorem mergeMessages_roles (p : String → Prop) (l : List Msg)
    (hl : ∀ m ∈ l, p m.role) : ∀ m ∈ mergeMessages l, p m.role := by
  cases l with
  | nil => intro m hm; simp [mergeMessages] at hm
  | cons a rest =>
      exact mergeMessagesAux_roles p rest a (hl a (List.mem_cons_self _ _))
        fun x hx => hl x (List.mem_cons_of_mem _ hx)

theorem dropTrailingBrace_roles (p : String → Prop) (l : List Msg)
    (hl : ∀ m ∈ l, p m.role) : ∀ m ∈ dropTrailingBrace l, p m.role := by
  have hsub : dropTrailingBrace l = l ∨ dropTrailingBrace l = l.dropLast := by
    unfold dropTrailingBrace
    split
    · split_ifs
      · exact Or.inr rfl
      · exact Or.inl rfl
    · exact Or.inl rfl
  intro m hm
  rcases hsub with h | h
  · rw [h] at hm; exact hl m hm
  · rw [h] at hm; exact hl m ((List.dropLast_sublist l).subset hm)

theorem lastEntryIsAssistant_concat_assistant (l : List HEntry) (a : AsstMsgE) :
    lastEntryIsAssistant (l ++ [HEntry.assistantResponseMessage a]) = true := by
  simp [lastEntryIsAssistant]

theorem lastEntry_user_of_not_assistant (l : List HEntry)
    (h : lastEntryIsAssistant l = false) :
    ∀ x ∈ l.getLast?, HEntry.isUserKind x = true := by
  intro x hx
  rw [lastEntryIsAssistant] at h
  cases hg : l.getLast? with
  | none => rw [hg] at hx; simp at hx
  | some e =>
      rw [hg] at hx h
      have hx2 : x = e := by simpa using hx.symm
      cases e with
      | userInputMessage u => rw [hx2]; rfl
      | assistantResponseMessage a => simp at h

theorem injectContinue_spec (base : List HEntry)
    (hb : List.Chain' (fun a b => HEntry.isUserKind a ≠ HEntry.isUserKind b) base) :
    List.Chain' (fun a b => HEntry.isUserKind a ≠ HEntry.isUserKind b)
      (injectContinue base) ∧
    (injectContinue base ≠ [] → lastEntryIsAssistant (injectContinue base) = true) := by
  unfold injectContinue
  by_cases hc : base ≠ [] ∧ lastEntryIsAssistant base = false
  · rw [if_pos hc]
    constructor
    · rw [List.chain'_append]
      refine ⟨hb, List.chain'_singleton _, ?_⟩
      intro x hx y hy
      simp at hy
      subst hy
      rw [lastEntry_user_of_not_assistant base hc.2 x hx]
      simp [HEntry.isUserKind]
    · intro _
      exact lastEntryIsAssistant_concat_assistant base _
  · rw [if_neg hc, List.append_nil]
    refine ⟨hb, ?_⟩
    intro hne
    rcases not_and_or.mp hc with h | h
    · exact absurd hne (by simpa using h)
    · simpa using h

theorem chain_dropLast {α : Type} {R : α → α → Prop} {l : List α}
    (h : List.Chain' R l) : List.Chain' R l.dropLast := by
  by_cases hn : l = []
  · subst hn; simp
  · have hd := List.dropLast_append_getLast hn
    rw [← hd] at h
    exact (List.chain'_append.mp h).1

theorem isUserKind_msgEntry_assistant (m : Msg) (h : m.role = "assistant") :
    HEntry.isUserKind (msgEntry m) = false := by
  rw [isUserKind_msgEntry, h]
  simp

theorem buildHistory_chain (first : Msg) (rest : List Msg) (sp : String)
    (hroles : ∀ m ∈ first :: rest, m.role = "user" ∨ m.role = "assistant")
    (hchain : List.Chain' (fun x y => x.role ≠ y.role) (first :: rest)) :
    List.Chain' (fun a b => HEntry.isUserKind a ≠ HEntry.isUserKind b)
      (buildHistory first rest sp) ∧
    (buildHistory first rest sp ≠ [] →
      lastEntryIsAssistant (buildHistory first rest sp) = true) := by
  have hnil : (first :: rest) ≠ [] := List.cons_ne_nil _ _
  have hlastrole : ((first :: rest).getLast hnil).role = "user" ∨
      ((first :: rest).getLast hnil).role = "assistant" :=
    hroles _ (List.getLast_mem hnil)
  have hdecomp : (first :: rest).dropLast ++ [(first :: rest).getLast hnil] =
      first :: rest := List.dropLast_append_getLast hnil
  have hrolesDL : ∀ m ∈ (first :: rest).dropLast, m.role = "user" ∨ m.role = "assistant" :=
    fun m hm => hroles m ((List.dropLast_sublist _).subset hm)
  have hchainDL : List.Chain' (fun x y => x.role ≠ y.role) ((first :: rest).dropLast) :=
    chain_dropLast hchain
  have hrolesR : ∀ m ∈ rest, m.role = "user" ∨ m.role = "assistant" :=
    fun m hm => hroles m (List.mem_cons_of_mem _ hm)
  have hchainR : List.Chain' (fun x y => x.role ≠ y.role) rest := hchain.tail
  by_cases hla : ((first :: rest).getLast hnil).role = "assistant"
  · -- the final message is an assistant turn, pushed onto history
    have hbh : buildHistory first rest sp =
        startEntriesOf first sp ++
          (((first :: rest).drop (startIndexOf first sp)).dropLast).filterMap midEntry ++
          [HEntry.assistantResponseMessage (asstFromMsg ((first :: rest).getLast hnil))] := by
      rw [buildHistory, if_pos hla]
    rw [hbh]
    refine ⟨?_, fun _ => lastEntryIsAssistant_concat_assistant _ _⟩
    have hmap : ((first :: rest).dropLast).map msgEntry ++
        [HEntry.assistantResponseMessage (asstFromMsg ((first :: rest).getLast hnil))] =
        (first :: rest).map msgEntry := by
      conv_rhs => rw [← hdecomp]
      rw [List.map_append]
      simp [msgEntry_assistant _ hla]
    by_cases hsp : sp = ""
    · have hse : startEntriesOf first sp = [] := by simp [startEntriesOf, hsp]
      have hsi : startIndexOf first sp = 0 := by simp [startIndexOf, hsp]
      rw [hse, hsi, List.nil_append, List.drop_zero, filterMap_midEntry _ hrolesDL, hmap]
      exact chain_kinds_map _ hroles hchain
    · by_cases hfr : first.role = "user"
      · have hse : startEntriesOf first sp =
            [HEntry.userInputMessage ⟨sp ++ "\n\n" ++ safeGetTextContent first, [], []⟩] := by
          simp [startEntriesOf, hsp, hfr]
        have hsi : startIndexOf first sp = 1 := by simp [startIndexOf, hsp, hfr]
        cases rest with
        | nil =>
            have : first.role = "assistant" := hla
            rw [hfr] at this
            exact absurd this (by decide)
        | cons r rr =>
            have hrne : (r :: rr) ≠ [] := List.cons_ne_nil _ _
            have hlastcons : (first :: r :: rr).getLast hnil = (r :: rr).getLast hrne :=
              List.getLast_cons hrne
            have hdecompR : (r :: rr).dropLast ++ [(r :: rr).getLast hrne] = r :: rr :=
              List.dropLast_append_getLast hrne
            have hrolesRDL : ∀ m ∈ (r :: rr).dropLast,
                m.role = "user" ∨ m.role = "assistant" :=
              fun m hm => hrolesR m ((List.dropLast_sublist _).subset hm)
            have hmapR : ((r :: rr).dropLast).map msgEntry ++
                [HEntry.assistantResponseMessage
                  (asstFromMsg ((first :: r :: rr).getLast hnil))] =
                (r :: rr).map msgEntry := by
              conv_rhs => rw [← hdecompR]
              rw [List.map_append, hlastcons]
              simp [msgEntry_assistant _ (hlastcons ▸ hla)]
            have hdrop : (first :: r :: rr).drop 1 = r :: rr := rfl
            rw [hse, hsi, hdrop, filterMap_midEntry _ hrolesRDL, List.append_assoc,
              hmapR, List.singleton_append, List.chain'_cons']
            constructor
            · intro y hy
              rw [List.map_cons] at hy
              have hy2 : y = msgEntry r := by simpa using hy.symm
              rw [hy2]
              have hrrole : r.role = "assistant" := by
                have h1 := (List.chain'_cons.mp hchain).1
                rcases hrolesR r (List.mem_cons_self _ _) with h | h
                · exact absurd (hfr.trans h.symm) h1
                · exact h
              rw [isUserKind_msgEntry_assistant _ hrrole]
              simp [HEntry.isUserKind]
            · exact chain_kinds_map _ hrolesR hchainR
      · have hse : startEntriesOf first sp =
            [HEntry.userInputMessage ⟨sp, [], []⟩] := by
          simp [startEntriesOf, hsp, hfr]
        have hsi : startIndexOf first sp = 0 := by simp [startIndexOf, hsp, hfr]
        have hfrole : first.role = "assistant" := by
          rcases hroles first (List.mem_cons_self _ _) with h | h
          · exact absurd h hfr
          · exact h
        rw [hse, hsi, List.drop_zero, filterMap_midEntry _ hrolesDL, List.append_assoc,
          hmap, List.singleton_append, List.chain'_cons']
        constructor
        · intro y hy
          rw [List.map_cons] at hy
          have hy2 : y = msgEntry first := by simpa using hy.symm
          rw [hy2, isUserKind_msgEntry_assistant _ hfrole]
          simp [HEntry.isUserKind]
        · exact chain_kinds_map _ hroles hchain
  · -- the final message is not an assistant turn: the Continue injection
    have hbh : buildHistory first rest sp =
        injectContinue (startEntriesOf first sp ++
          (((first :: rest).drop (startIndexOf first sp)).dropLast).filterMap midEntry) := by
      rw [buildHistory, if_neg hla]
    rw [hbh]
    refine injectContinue_spec _ ?_
    by_cases hsp : sp = ""
    · have hse : startEntriesOf first sp = [] := by simp [startEntriesOf, hsp]
      have hsi : startIndexOf first sp = 0 := by simp [startIndexOf, hsp]
      rw [hse, hsi, List.nil_append, List.drop_zero, filterMap_midEntry _ hrolesDL]
      exact chain_kinds_map _ hrolesDL hchainDL
    · by_cases hfr : first.role = "user"
      · have hse : startEntriesOf first sp =
            [HEntry.userInputMessage ⟨sp ++ "\n\n" ++ safeGetTextContent first, [], []⟩] := by
          simp [startEntriesOf, hsp, hfr]
        have hsi : startIndexOf first sp = 1 := by simp [startIndexOf, hsp, hfr]
        have hrolesRDL : ∀ m ∈ rest.dropLast, m.role = "user" ∨ m.role = "assistant" :=
          fun m hm => hrolesR m ((List.dropLast_sublist _).subset hm)
        have hdrop : (first :: rest).drop 1 = rest := rfl
        rw [hse, hsi, hdrop, filterMap_midEntry _ hrolesRDL, List.singleton_append,
          List.chain'_cons']
        constructor
        · intro y hy
          cases rest with
          | nil => simp at hy
          | cons r rr =>
              cases rr with
              | nil => simp at hy
              | cons r2 rr2 =>
                  rw [List.dropLast_cons₂, List.map_cons] at hy
                  have hy2 : y = msgEntry r := by simpa using hy.symm
                  rw [hy2]
                  have hrrole : r.role = "assistant" := by
                    have h1 := (List.chain'_cons.mp hchain).1
                    rcases hrolesR r (List.mem_cons_self _ _) with h | h
                    · exact absurd (hfr.trans h.symm) h1
                    · exact h
                  rw [isUserKind_msgEntry_assistant _ hrrole]
                  simp [HEntry.isUserKind]
        · exact chain_kinds_map _ hrolesRDL (chain_dropLast hchainR)
      · have hse : startEntriesOf first sp =
            [HEntry.userInputMessage ⟨sp, [], []⟩] := by
          simp [startEntriesOf, hsp, hfr]
        have hsi : startIndexOf first sp = 0 := by simp [startIndexOf, hsp, hfr]
        have hfrole : first.role = "assistant" := by
          rcases hroles first (List.mem_cons_self _ _) with h | h
          · exact absurd h hfr
          · exact h
        rw [hse, hsi, List.drop_zero, filterMap_midEntry _ hrolesDL,
          List.singleton_append, List.chain'_cons']
        constructor
        · intro y hy
          cases rest with
          | nil => simp at hy
          | cons r rr =>
              rw [List.dropLast_cons₂, List.map_cons] at hy
              have hy2 : y = msgEntry first := by simpa using hy.symm
              rw [hy2, isUserKind_msgEntry_assistant _ hfrole]
              simp [HEntry.isUserKind]
        · exact chain_kinds_map _ hrolesDL hchainDL

/-- C6 counterexample: a message list containing a role that is neither
`user` nor `assistant` (here a `tool` message between two user turns) is
accepted by the translator, and the skipped role leaves two consecutive
`userInputMessage` entries in the built history — the history does not
alternate. -/
theorem c6_counterexample :
    historyOf (buildCodewhispererRequest
      [⟨"user", MContent.str "a"⟩, ⟨"tool", MContent.str "t"⟩,
       ⟨"user", MContent.str "b"⟩, ⟨"assistant", MContent.str "c"⟩] [] none false) =
      [HEntry.userInputMessage ⟨"a", [], []⟩, HEntry.userInputMessage ⟨"b", [], []⟩,
       HEntry.assistantResponseMessage ⟨"c", []⟩] ∧
    ¬ List.Chain' (fun a b => HEntry.isUserKind a ≠ HEntry.isUserKind b)
      [HEntry.userInputMessage ⟨"a", [], []⟩, HEntry.userInputMessage ⟨"b", [], []⟩,
       HEntry.assistantResponseMessage ⟨"c", []⟩] := by
  constructor
  · rfl
  · intro h
    exact (List.chain'_cons.mp h).1 rfl

/-- C6 amended: for every input message list whose roles are all `user`
or `assistant` (the roles the history loop translates; any other role is
silently skipped and can break alternation), the history of the built
Kiro request strictly alternates between `userInputMessage` and
`assistantResponseMessage`, and when the history is non-empty its last
entry is an assistant turn — by the trailing assistant push or by the
synthetic assistant `{content:"Continue"}` injected before
`currentMessage` whenever the last history entry is not an assistant
turn. -/
theorem c6_amended_history_alternation (messages : List Msg) (tools : List ToolSpec)
    (system : Option MContent) (authSocial : Bool) (req : KiroRequest)
    (hroles : ∀ m ∈ messages, m.role = "user" ∨ m.role = "assistant")
    (hok : buildCodewhispererRequest messages tools system authSocial = Except.ok req) :
    List.Chain' (fun a b => HEntry.isUserKind a ≠ HEntry.isUserKind b) req.history ∧
    (req.history ≠ [] → lastEntryIsAssistant req.history = true) := by
  unfold buildCodewhispererRequest at hok
  by_cases hemp : messages.isEmpty
  · rw [if_pos hemp] at hok
    cases hok
  rw [if_neg hemp] at hok
  have hroles2 : ∀ m ∈ mergeMessages (dropTrailingBrace messages),
      m.role = "user" ∨ m.role = "assistant" :=
    mergeMessages_roles (fun ro => ro = "user" ∨ ro = "assistant") _
      (dropTrailingBrace_roles (fun ro => ro = "user" ∨ ro = "assistant") _ hroles)
  have hchain2 := mergeMessages_chain (dropTrailingBrace messages)
  cases hm : mergeMessages (dropTrailingBrace messages) with
  | nil =>
      rw [hm] at hok
      cases hok
  | cons f r =>
      rw [hm] at hok hroles2 hchain2
      have hok2 : (Except.ok
          { history := buildHistory f r (safeGetTextContentSys system)
            currentMessage := buildCurrentMessage f r
            tools := tools
            profileArn := authSocial } : Except String KiroRequest) = Except.ok req := hok
      cases hok2
      exact buildHistory_chain f r _ hroles2 hchain2

/-- Witness for `c6_amended_history_alternation` on the two-message
conversation `[user "hi", assistant "ok"]`: the built history is
`[userInputMessage "hi", assistantResponseMessage "ok"]`, which
alternates and ends in an assistant turn. -/
theorem c6_amended_history_alternation_witness :
    List.Chain' (fun a b => HEntry.isUserKind a ≠ HEntry.isUserKind b)
      [HEntry.userInputMessage ⟨"hi", [], []⟩, HEntry.assistantResponseMessage ⟨"ok", []⟩] ∧
    lastEntryIsAssistant
      [HEntry.userInputMessage ⟨"hi", [], []⟩,
       HEntry.assistantResponseMessage ⟨"ok", []⟩] = true := by
  have h := c6_amended_history_alternation
    [⟨"user", MContent.str "hi"⟩, ⟨"assistant", MContent.str "ok"⟩] [] none false
    { history := [HEntry.userInputMessage ⟨"hi", [], []⟩,
        HEntry.assistantResponseMessage ⟨"ok", []⟩]
      currentMessage := ⟨"Continue", [], []⟩
      tools := []
      profileArn := false }
    (by decide) rfl
  exact ⟨h.1, h.2 (by decide)⟩
